import Mathlib

/-!
# megobot: command dispatch with a bounded handler, and the bot lifecycle

A shallow embedding of `megobot.go` and `command.go`.

* The transport (`discordgo.Session`) is an external collaborator.  Every call
  the code makes on it is recorded, in program order, as an `Effect`; the
  outcome of each call (the `error` it returns) is an input, gathered in
  `World` for a dispatch and in `StartWorld` for `Start`.
* An `error` is modelled by its message; `none` is Go's `nil`.
* `time.Duration` is an integer number of nanoseconds.
* A handler is a function of the interaction and the option map to a
  `HandlerRun`: either it never returns, or it returns a string after a
  latency.  The `select` of the dispatcher closure races that latency against
  the timer started by `time.After`.
* A Go `map` is an association list with pairwise distinct keys: assigning to
  a key that is present replaces its value, assigning to a fresh key adds an
  entry.
-/

/-! ## Data model -/

/-- Declared option descriptor of a command (`discordgo.ApplicationCommandOption`). -/
structure ApplicationCommandOption where
  Type_ : Nat
  Name : String
  Description : String
  Required : Bool
  deriving DecidableEq, Repr

/-- Command declaration published to the platform (`discordgo.ApplicationCommand`). -/
structure ApplicationCommand where
  Name : String
  Description : String
  Options : List ApplicationCommandOption
  deriving DecidableEq, Repr

/-- Option supplied by an invocation (`discordgo.ApplicationCommandInteractionDataOption`). -/
structure ApplicationCommandInteractionDataOption where
  Name : String
  Type_ : Nat
  Value : String
  deriving DecidableEq, Repr

/-- Result of `i.ApplicationCommandData()`: the command name and the option list. -/
structure ApplicationCommandInteractionData where
  Name : String
  Options : List ApplicationCommandInteractionDataOption
  deriving DecidableEq, Repr

/-- Inbound event (`discordgo.InteractionCreate`): interaction reference, kind, data. -/
structure InteractionCreate where
  ID : String
  Type_ : Nat
  Data : ApplicationCommandInteractionData
  deriving DecidableEq, Repr

/-- Constant `discordgo.InteractionApplicationCommand`. -/
def InteractionApplicationCommand : Nat := 2

/-- Constant `discordgo.InteractionResponseDeferredChannelMessageWithSource`. -/
def InteractionResponseDeferredChannelMessageWithSource : Nat := 5

/-- Constant `discordgo.IntentsGuilds`. -/
def IntentsGuilds : Nat := 1

/-- Constant `time.Second`, in nanoseconds. -/
def Second : Int := 1000000000

/-- Accessor `i.ApplicationCommandData()`. -/
def InteractionCreate.ApplicationCommandData (i : InteractionCreate) :
    ApplicationCommandInteractionData :=
  i.Data

/-! ## Go maps -/

/-- Go `map[string]V`, as an association list. -/
abbrev GoMap (V : Type) := List (String × V)

/-- Assignment `m[k] = v`. -/
def GoMap.set {V : Type} : GoMap V → String → V → GoMap V
  | [], k, v => [(k, v)]
  | (k0, v0) :: t, k, v => if k0 = k then (k, v) :: t else (k0, v0) :: GoMap.set t k v

/-- Lookup `m[k]`, with `none` for an absent key. -/
def GoMap.get? {V : Type} : GoMap V → String → Option V
  | [], _ => none
  | (k0, v0) :: t, k => if k0 = k then some v0 else GoMap.get? t k

/-- Keys of the map. -/
def GoMap.keys {V : Type} (m : GoMap V) : List String :=
  m.map Prod.fst

/-- Number of entries, `len(m)`. -/
def GoMap.len {V : Type} (m : GoMap V) : Nat :=
  m.length

/-- The map handed to a handler. -/
abbrev OptionMap := GoMap ApplicationCommandInteractionDataOption

/-! ## Effects, handlers, the bot -/

/-- What a handler run does: `none` when it never returns, `some (d, r)` when it
returns the string `r` after `d` nanoseconds. -/
abbrev HandlerRun := Option (Nat × String)

/-- Handler of a command (`CommandHandler`). -/
abbrev CommandHandler := InteractionCreate → OptionMap → HandlerRun

/-- Branch of the `select` in `Start` that fired. -/
inductive Unblock where
  | ctxDone (err : String)
  | signal (sig : String)
  deriving DecidableEq, Repr

/-- Observable step of the program, in program order. -/
inductive Effect where
  | InteractionRespond (interaction : String) (responseType : Nat)
  | InteractionResponseEdit (interaction : String) (content : String)
  | ApplicationCommandBulkOverwrite (appID guildID : String) (cmds : List ApplicationCommand)
  | Open
  | Close
  | handlerCall (i : InteractionCreate) (options : OptionMap)
  | unblocked (u : Unblock)
  | log (msg : String)
  deriving DecidableEq, Repr

/-- Calls on the transport, as opposed to log lines and handler starts. -/
def Effect.isTransport : Effect → Bool
  | .InteractionRespond _ _ => true
  | .InteractionResponseEdit _ _ => true
  | .ApplicationCommandBulkOverwrite _ _ _ => true
  | .Open => true
  | .Close => true
  | _ => false

/-- Acknowledge calls. -/
def Effect.isAcknowledge : Effect → Bool
  | .InteractionRespond _ _ => true
  | _ => false

/-- EditResponse calls. -/
def Effect.isEdit : Effect → Bool
  | .InteractionResponseEdit _ _ => true
  | _ => false

/-- Handler starts. -/
def Effect.isHandlerCall : Effect → Bool
  | .handlerCall _ _ => true
  | _ => false

/-- Content of an EditResponse call. -/
def Effect.editContent? : Effect → Option String
  | .InteractionResponseEdit _ c => some c
  | _ => none

/-- Command set of a bulk overwrite call. -/
def Effect.overwritten? : Effect → Option (List ApplicationCommand)
  | .ApplicationCommandBulkOverwrite _ _ cmds => some cmds
  | _ => none

/-- Event handler installed by `AddCommand`: the closure, with the variables it
captures (`name`, `handler`; the bot `m` is supplied when it runs). -/
structure InstalledHandler where
  name : String
  handler : CommandHandler

/-- The part of `discordgo.Session` the code uses. -/
structure Session where
  Token : String
  Intents : Nat
  handlers : List InstalledHandler

/-- The bot. -/
structure Megobot where
  token : String
  session : Session
  commands : List ApplicationCommand
  guildId : String
  timeout : Int

/-- Command declaration with its handler (`Command`). -/
structure Command where
  Name : String
  Description : String
  Options : List ApplicationCommandOption
  Handler : CommandHandler

/-- Outcomes of the transport calls of one dispatch, and the choice `select`
makes when both of its channels are ready. -/
structure World where
  respondErr : Option String
  editErr : Option String
  pickResult : Bool

/-- Constructor `New`; `newErr` is the `error` returned by `discordgo.New`, which
otherwise gives a session for the token, with no handler installed. -/
def New (newErr : Option String) (token guildId : String) : Except String Megobot :=
  match newErr with
  | some err => .error ("error creating session: " ++ err)
  | none =>
    .ok
      { token := token
        session := { Token := "Bot " ++ token, Intents := IntentsGuilds, handlers := [] }
        commands := []
        guildId := guildId
        timeout := 30 * Second }

/-- Method `SetTimeout`. -/
def Megobot.SetTimeout (m : Megobot) (timeout : Int) : Megobot :=
  { m with timeout := timeout }

/-- Method `session.AddHandler`. -/
def Session.AddHandler (s : Session) (h : InstalledHandler) : Session :=
  { s with handlers := s.handlers ++ [h] }

/-- Method `AddCommand`: appends the declaration and installs the closure. -/
def Megobot.AddCommand (m : Megobot) (name description : String)
    (options : List ApplicationCommandOption) (handler : CommandHandler) : Megobot :=
  let c : ApplicationCommand := { Name := name, Description := description, Options := options }
  { m with
    commands := m.commands ++ [c]
    session := m.session.AddHandler { name := name, handler := handler } }

/-- Method `Command.Bind`. -/
def Command.Bind (c : Command) (bot : Megobot) : Megobot :=
  bot.AddCommand c.Name c.Description c.Options c.Handler

/-! ## The dispatcher closure -/

/-- The loop filling `optionMap` from `optionsReq`. -/
def buildOptionMap (optionsReq : List ApplicationCommandInteractionDataOption) : OptionMap :=
  optionsReq.foldl (fun optionMap opt => GoMap.set optionMap opt.Name opt) []

/-- The fixed message of the timeout branch. -/
def timeoutMessage : String := "⏱️ Tempo limite de resposta excedido"

/-- Instant at which the channel of `time.After d` becomes ready: a duration
that is not positive fires at once. -/
def timerFires (d : Int) : Int :=
  if d ≤ 0 then 0 else d

/-- Branch taken by the `select` of the closure. -/
inductive Selected where
  | result (res : String)
  | timedOut
  deriving DecidableEq, Repr

/-- The `select` over `resultChan` and `time.After(m.timeout)`: the channel
that is ready first wins, and `pick` decides when both are ready at once. -/
def selectResult (timeout : Int) (run : HandlerRun) (pick : Bool) : Selected :=
  match run with
  | none => .timedOut
  | some (d, res) =>
    if (d : Int) < timerFires timeout then .result res
    else if timerFires timeout < (d : Int) then .timedOut
    else if pick then .result res else .timedOut

/-- The tail of the closure, from `if finalResponse != ""`. -/
def deliver (w : World) (i : InteractionCreate) (finalResponse : String) : List Effect :=
  if finalResponse ≠ "" then
    Effect.InteractionResponseEdit i.ID finalResponse ::
      (match w.editErr with
       | some err => [Effect.log ("error editing interaction response: " ++ err)]
       | none => [])
  else []

/-- Body of the closure that `AddCommand` installs, run for the bot `m`. -/
def InstalledHandler.run (h : InstalledHandler) (m : Megobot) (w : World)
    (i : InteractionCreate) : List Effect :=
  if i.Type_ ≠ InteractionApplicationCommand then []
  else if i.ApplicationCommandData.Name = h.name then
    Effect.InteractionRespond i.ID InteractionResponseDeferredChannelMessageWithSource ::
      (match w.respondErr with
       | some err => [Effect.log ("error sending deferred response: " ++ err)]
       | none =>
         let optionMap := buildOptionMap i.ApplicationCommandData.Options
         Effect.handlerCall i optionMap ::
           (match selectResult m.timeout (h.handler i optionMap) w.pickResult with
            | .result res => deliver w i res
            | .timedOut =>
              Effect.log ("command \x27" ++ h.name ++ "\x27 timed out") ::
                deliver w i timeoutMessage))
  else []

/-- Delivery of one event by the session: every installed handler runs on it,
each in its own goroutine.  The result has one trace per installed handler, in
installation order; `ws k` is the world of the handler at position `k`. -/
def Megobot.handleEvent (m : Megobot) (ws : Nat → World) (i : InteractionCreate) :
    List (List Effect) :=
  m.session.handlers.enum.map (fun p => p.2.run m (ws p.1) i)

/-! ## Lifecycle -/

/-- Outcomes of the transport calls of `Start`, the application id found in
`m.session.State.User.ID` once the connection is open, and the branch of the
`select` that fires (`none` when neither ever does). -/
structure StartWorld where
  userID : String
  openErr : Option String
  loadErr : Option String
  clearErr : Option String
  closeErr : Option String
  unblock : Option Unblock

/-- Method `loadCommands`. -/
def Megobot.loadCommands (m : Megobot) (w : StartWorld) : List Effect :=
  Effect.ApplicationCommandBulkOverwrite w.userID m.guildId m.commands ::
    (match w.loadErr with
     | some err => [Effect.log ("failed to create commands: " ++ err)]
     | none => [])

/-- Method `clearCommands`. -/
def Megobot.clearCommands (m : Megobot) (w : StartWorld) : List Effect :=
  Effect.ApplicationCommandBulkOverwrite w.userID m.guildId [] ::
    (match w.clearErr with
     | some err => [Effect.log ("error cleaning up commands: " ++ err)]
     | none => [])

/-- How a call of `Start` ends: it stays blocked in its `select`, or it returns
an `error` (`none` for `nil`). -/
inductive StartOutcome where
  | blocked
  | returned (err : Option String)
  deriving DecidableEq, Repr

/-- Method `Start`: the trace and the outcome.  The deferred calls run in
reverse order of their `defer` statements, after the `return` is evaluated. -/
def Megobot.Start (m : Megobot) (w : StartWorld) : List Effect × StartOutcome :=
  match w.openErr with
  | some err => ([Effect.Open, Effect.log ("error opening connection: " ++ err)], .returned (some err))
  | none =>
    let upToSelect := Effect.Open :: m.loadCommands w
    match w.unblock with
    | none => (upToSelect, .blocked)
    | some (.ctxDone err) =>
      (upToSelect ++ [Effect.unblocked (.ctxDone err), Effect.log ("context cancelled: " ++ err)]
        ++ m.clearCommands w ++ [Effect.Close], .returned (some err))
    | some (.signal sig) =>
      (upToSelect ++ [Effect.unblocked (.signal sig), Effect.log ("signal received: " ++ sig)]
        ++ m.clearCommands w ++ [Effect.Close], .returned none)

/-! ## Registration sequences -/

/-- One registration call on the bot. -/
inductive Registration where
  | addCommand (name description : String) (options : List ApplicationCommandOption)
      (handler : CommandHandler)
  | bind (c : Command)

/-- Performs the registration call. -/
def Registration.apply (m : Megobot) : Registration → Megobot
  | .addCommand name description options handler => m.AddCommand name description options handler
  | .bind c => c.Bind m

/-- The declaration a registration was made with. -/
def Registration.declared : Registration → ApplicationCommand
  | .addCommand name description options _ =>
    { Name := name, Description := description, Options := options }
  | .bind c => { Name := c.Name, Description := c.Description, Options := c.Options }

/-- The bot after a sequence of registration calls. -/
def Megobot.register (m : Megobot) (regs : List Registration) : Megobot :=
  regs.foldl Registration.apply m

/-- The closure a registration installs. -/
def Registration.installed : Registration → InstalledHandler
  | .addCommand name _ _ handler => { name := name, handler := handler }
  | .bind c => { name := c.Name, handler := c.Handler }

/-- Names registered by a sequence of registration calls. -/
def registeredNames (regs : List Registration) : List String :=
  regs.map (fun r => r.declared.Name)

/-- The handlers that a call of `AddCommand` installs: those of the session
after the call that were not there before it. -/
def installedBy (m0 : Megobot) (name description : String)
    (options : List ApplicationCommandOption) (handler : CommandHandler) :
    List InstalledHandler :=
  (m0.AddCommand name description options handler).session.handlers.drop
    m0.session.handlers.length

/-! ## Concrete inputs -/

/-- A fresh bot, as `New` returns it. -/
def sampleBot : Megobot :=
  { token := "t"
    session := { Token := "Bot t", Intents := IntentsGuilds, handlers := [] }
    commands := []
    guildId := "g"
    timeout := 30 * Second }

/-- Handler returning `pong` after 10 ms. -/
def pongHandler : CommandHandler := fun _ _ => some (10000000, "pong")

/-- Handler returning `done` after 2 s. -/
def slowHandler : CommandHandler := fun _ _ => some (2000000000, "done")

/-- Handler returning the empty string at once. -/
def silentHandler : CommandHandler := fun _ _ => some (0, "")

/-- Invocation of the command `ping` with one option. -/
def pingEvent : InteractionCreate :=
  { ID := "i1"
    Type_ := InteractionApplicationCommand
    Data := { Name := "ping", Options := [{ Name := "x", Type_ := 3, Value := "1" }] } }

/-- World in which every transport call succeeds. -/
def okWorld : World := { respondErr := none, editErr := none, pickResult := true }

/-- World in which the Acknowledge call fails. -/
def ackFailWorld : World := { respondErr := some "boom", editErr := none, pickResult := true }

/-- Run of `Start` ended by the cancellation of the context. -/
def cancelledStart : StartWorld :=
  { userID := "app", openErr := none, loadErr := some "denied", clearErr := some "denied",
    closeErr := none, unblock := some (.ctxDone "context canceled") }

/-- Run of `Start` in which the connection does not open and nothing ever unblocks. -/
def failedOpenStart : StartWorld :=
  { userID := "app", openErr := some "no route", loadErr := none, clearErr := none,
    closeErr := none, unblock := none }

/-- Two registrations, one through `AddCommand` and one through `Bind`. -/
def sampleRegs : List Registration :=
  [.addCommand "ping" "replies" [] pongHandler,
   .bind { Name := "slow", Description := "sleeps", Options := [], Handler := slowHandler }]

/-- The same name registered twice. -/
def duplicateRegs : List Registration :=
  [.addCommand "ping" "replies" [] pongHandler, .addCommand "ping" "again" [] pongHandler]

/-! ## Evaluation on concrete inputs -/

theorem eval_ping_answers_pong : ({ name := "ping", handler := pongHandler } : InstalledHandler).run sampleBot okWorld pingEvent
    = [Effect.InteractionRespond "i1" 5,
       Effect.handlerCall pingEvent [("x", { Name := "x", Type_ := 3, Value := "1" })],
       Effect.InteractionResponseEdit "i1" "pong"] := by
  decide

theorem eval_slow_times_out : ({ name := "slow", handler := slowHandler } : InstalledHandler).run
    (sampleBot.SetTimeout 500000000) okWorld { pingEvent with Data := { Name := "slow", Options := [] } }
    = [Effect.InteractionRespond "i1" 5,
       Effect.handlerCall { pingEvent with Data := { Name := "slow", Options := [] } } [],
       Effect.log "command \x27slow\x27 timed out",
       Effect.InteractionResponseEdit "i1" timeoutMessage] := by
  decide

theorem eval_duplicate_acknowledges : ((sampleBot.register duplicateRegs).handleEvent (fun _ => okWorld) pingEvent).flatten.filter
    Effect.isAcknowledge = [Effect.InteractionRespond "i1" 5, Effect.InteractionRespond "i1" 5] := by
  decide

theorem eval_start_cancelled : (sampleBot.register sampleRegs).Start cancelledStart =
    ([Effect.Open,
      Effect.ApplicationCommandBulkOverwrite "app" "g"
        [{ Name := "ping", Description := "replies", Options := [] },
         { Name := "slow", Description := "sleeps", Options := [] }],
      Effect.log "failed to create commands: denied",
      Effect.unblocked (.ctxDone "context canceled"),
      Effect.log "context cancelled: context canceled",
      Effect.ApplicationCommandBulkOverwrite "app" "g" [],
      Effect.log "error cleaning up commands: denied",
      Effect.Close], .returned (some "context canceled")) := by
  decide

theorem eval_option_map_last_wins : buildOptionMap [{ Name := "a", Type_ := 3, Value := "1" }, { Name := "b", Type_ := 3, Value := "2" },
    { Name := "a", Type_ := 3, Value := "3" }]
    = [("a", { Name := "a", Type_ := 3, Value := "3" }), ("b", { Name := "b", Type_ := 3, Value := "2" })] := by
  decide

/-! ## Go maps: assignment and lookup -/

theorem GoMap.get?_set {V : Type} (m : GoMap V) (k k' : String) (v : V) :
    (GoMap.set m k v).get? k' = if k = k' then some v else m.get? k' := by
  induction m with
  | nil => simp [GoMap.set, GoMap.get?]
  | cons p t ih =>
    obtain ⟨k0, v0⟩ := p
    by_cases h0 : k0 = k
    · subst h0
      by_cases h1 : k0 = k' <;> simp [GoMap.set, GoMap.get?, h1]
    · by_cases h1 : k0 = k'
      · subst h1
        have h2 : ¬ k = k0 := fun h => h0 h.symm
        simp [GoMap.set, GoMap.get?, h0, h2]
      · simp [GoMap.set, GoMap.get?, h0, h1, ih]

theorem GoMap.mem_keys_set {V : Type} (m : GoMap V) (k k' : String) (v : V) :
    k' ∈ (GoMap.set m k v).keys ↔ k' = k ∨ k' ∈ m.keys := by
  induction m with
  | nil => simp [GoMap.set, GoMap.keys]
  | cons p t ih =>
    obtain ⟨k0, v0⟩ := p
    by_cases h0 : k0 = k
    · subst h0
      simp [GoMap.set, GoMap.keys]
    · simp only [GoMap.keys] at ih
      simp [GoMap.set, GoMap.keys, h0, ih]
      tauto

theorem GoMap.nodup_keys_set {V : Type} (m : GoMap V) (k : String) (v : V)
    (h : m.keys.Nodup) : (GoMap.set m k v).keys.Nodup := by
  induction m with
  | nil => simp [GoMap.set, GoMap.keys]
  | cons p t ih =>
    obtain ⟨k0, v0⟩ := p
    have ht : (GoMap.keys t).Nodup := by
      simp only [GoMap.keys, List.map_cons, List.nodup_cons] at h
      exact h.2
    have hk0 : k0 ∉ GoMap.keys t := by
      simp only [GoMap.keys, List.map_cons, List.nodup_cons] at h
      exact h.1
    by_cases h0 : k0 = k
    · subst h0
      simpa [GoMap.set, GoMap.keys] using h
    · have hmem : k0 ∉ (GoMap.set t k v).keys := by
        rw [GoMap.mem_keys_set]
        rintro (h1 | h1)
        · exact h0 h1
        · exact hk0 h1
      have ih' := ih ht
      simp only [GoMap.keys] at hmem ih'
      simp [GoMap.set, GoMap.keys, h0, hmem, ih']

theorem GoMap.len_set_fresh {V : Type} (m : GoMap V) (k : String) (v : V)
    (h : k ∉ m.keys) : (GoMap.set m k v).len = m.len + 1 := by
  induction m with
  | nil => simp [GoMap.set, GoMap.len]
  | cons p t ih =>
    obtain ⟨k0, v0⟩ := p
    simp only [GoMap.keys, List.map_cons, List.mem_cons, not_or] at h
    have h0 : ¬ k0 = k := fun e => h.1 e.symm
    have ih' := ih (by simpa [GoMap.keys] using h.2)
    simp only [GoMap.len] at ih'
    simp [GoMap.set, GoMap.len, h0, ih']

/-- The loop of `buildOptionMap`, started from any map. -/
theorem foldl_set_get? (opts : List ApplicationCommandInteractionDataOption) (acc : OptionMap)
    (k : String) :
    GoMap.get? (opts.foldl (fun optionMap opt => GoMap.set optionMap opt.Name opt) acc) k
      = (opts.reverse.find? (fun o => decide (o.Name = k))).or (GoMap.get? acc k) := by
  induction opts generalizing acc with
  | nil => simp
  | cons o t ih =>
    rw [List.foldl_cons, ih, GoMap.get?_set, List.reverse_cons, List.find?_append]
    by_cases h : o.Name = k
    · simp [h, List.find?_cons]
      cases List.find? (fun o => decide (o.Name = k)) t.reverse <;> simp
    · simp [h, List.find?_cons]

theorem foldl_set_mem_keys (opts : List ApplicationCommandInteractionDataOption) (acc : OptionMap)
    (k : String) :
    k ∈ GoMap.keys (opts.foldl (fun optionMap opt => GoMap.set optionMap opt.Name opt) acc)
      ↔ k ∈ GoMap.keys acc ∨ ∃ o ∈ opts, o.Name = k := by
  induction opts generalizing acc with
  | nil => simp
  | cons o t ih =>
    rw [List.foldl_cons, ih, GoMap.mem_keys_set]
    constructor
    · rintro ((h | h) | ⟨o', ho', h⟩)
      · exact Or.inr ⟨o, List.mem_cons_self _ _, h.symm⟩
      · exact Or.inl h
      · exact Or.inr ⟨o', List.mem_cons_of_mem _ ho', h⟩
    · rintro (h | ⟨o', ho', h⟩)
      · exact Or.inl (Or.inr h)
      · rcases List.mem_cons.1 ho' with e | e
        · subst e
          exact Or.inl (Or.inl h.symm)
        · exact Or.inr ⟨o', e, h⟩

theorem foldl_set_nodup_keys (opts : List ApplicationCommandInteractionDataOption) (acc : OptionMap)
    (h : (GoMap.keys acc).Nodup) :
    (GoMap.keys (opts.foldl (fun optionMap opt => GoMap.set optionMap opt.Name opt) acc)).Nodup := by
  induction opts generalizing acc with
  | nil => simpa using h
  | cons o t ih =>
    rw [List.foldl_cons]
    exact ih _ (GoMap.nodup_keys_set acc o.Name o h)

theorem foldl_set_len (opts : List ApplicationCommandInteractionDataOption) (acc : OptionMap)
    (h : (opts.map (fun o => o.Name)).Nodup) (hd : ∀ o ∈ opts, o.Name ∉ GoMap.keys acc) :
    GoMap.len (opts.foldl (fun optionMap opt => GoMap.set optionMap opt.Name opt) acc)
      = GoMap.len acc + opts.length := by
  induction opts generalizing acc with
  | nil => simp
  | cons o t ih =>
    rw [List.foldl_cons]
    simp only [List.map_cons, List.nodup_cons] at h
    rw [ih _ h.2, GoMap.len_set_fresh acc o.Name o (hd o (List.mem_cons_self _ _))]
    · simp only [List.length_cons]
      omega
    · intro o' ho' hmem
      rw [GoMap.mem_keys_set] at hmem
      rcases hmem with e | e
      · exact h.1 (List.mem_map.2 ⟨o', ho', e⟩)
      · exact hd o' (List.mem_cons_of_mem _ ho') e

theorem find?_last_of_nodup (opts : List ApplicationCommandInteractionDataOption)
    (h : (opts.map (fun o => o.Name)).Nodup) (o : ApplicationCommandInteractionDataOption)
    (ho : o ∈ opts) :
    opts.reverse.find? (fun x => decide (x.Name = o.Name)) = some o := by
  cases hf : opts.reverse.find? (fun x => decide (x.Name = o.Name)) with
  | none =>
    rw [List.find?_eq_none] at hf
    have := hf o (List.mem_reverse.2 ho)
    simp at this
  | some x =>
    have hx : x ∈ opts := List.mem_reverse.1 (List.mem_of_find?_eq_some hf)
    have hn : x.Name = o.Name := by simpa using List.find?_some hf
    rw [List.inj_on_of_nodup_map h hx ho hn]

/-! ## The race and the closure: basic facts -/

theorem timeoutMessage_ne_empty : timeoutMessage ≠ "" := by
  decide

theorem selectResult_before (timeout : Int) (d : Nat) (r : String) (pick : Bool)
    (h : (d : Int) < timeout) : selectResult timeout (some (d, r)) pick = .result r := by
  have hd : (0 : Int) ≤ d := Int.ofNat_nonneg d
  have hpos : ¬ timeout ≤ 0 := by omega
  simp [selectResult, timerFires, hpos, h]

theorem selectResult_after (timeout : Int) (run : HandlerRun) (pick : Bool)
    (h : ∀ d r, run = some (d, r) → timerFires timeout < (d : Int)) :
    selectResult timeout run pick = .timedOut := by
  cases run with
  | none => rfl
  | some p =>
    obtain ⟨d, r⟩ := p
    have hlt := h d r rfl
    have h1 : ¬ (d : Int) < timerFires timeout := by omega
    simp [selectResult, h1, hlt]

theorem deliver_nonempty (w : World) (i : InteractionCreate) (r : String) (hr : r ≠ "") :
    deliver w i r = Effect.InteractionResponseEdit i.ID r ::
      (match w.editErr with
       | some err => [Effect.log ("error editing interaction response: " ++ err)]
       | none => []) := by
  simp [deliver, hr]

theorem deliver_filter_transport (w : World) (i : InteractionCreate) (r : String) (hr : r ≠ "") :
    (deliver w i r).filter Effect.isTransport = [Effect.InteractionResponseEdit i.ID r] := by
  rw [deliver_nonempty w i r hr]
  cases w.editErr <;> simp [Effect.isTransport]

theorem deliver_edit_contents (w : World) (i : InteractionCreate) (r : String) (hr : r ≠ "") :
    (deliver w i r).filterMap Effect.editContent? = [r] := by
  rw [deliver_nonempty w i r hr]
  cases w.editErr <;> simp [Effect.editContent?]

theorem deliver_no_acknowledge (w : World) (i : InteractionCreate) (r : String) :
    (deliver w i r).filter Effect.isAcknowledge = [] := by
  unfold deliver
  split
  · cases w.editErr <;> simp [Effect.isAcknowledge]
  · rfl

theorem deliver_no_handlerCall (w : World) (i : InteractionCreate) (r : String) :
    (deliver w i r).filter Effect.isHandlerCall = [] := by
  unfold deliver
  split
  · cases w.editErr <;> simp [Effect.isHandlerCall]
  · rfl

/-- The closure on an event it does not act on. -/
theorem run_not_matching (h : InstalledHandler) (m : Megobot) (w : World) (i : InteractionCreate)
    (hno : i.Type_ ≠ InteractionApplicationCommand ∨ i.ApplicationCommandData.Name ≠ h.name) :
    h.run m w i = [] := by
  unfold InstalledHandler.run
  rcases hno with hk | hn
  · simp [hk]
  · simp [hn]

/-- The closure on a command invocation bearing its name. -/
theorem run_matching (h : InstalledHandler) (m : Megobot) (w : World) (i : InteractionCreate)
    (hkind : i.Type_ = InteractionApplicationCommand)
    (hname : i.ApplicationCommandData.Name = h.name) :
    h.run m w i =
      Effect.InteractionRespond i.ID InteractionResponseDeferredChannelMessageWithSource ::
        (match w.respondErr with
         | some err => [Effect.log ("error sending deferred response: " ++ err)]
         | none =>
           Effect.handlerCall i (buildOptionMap i.ApplicationCommandData.Options) ::
             (match selectResult m.timeout
                (h.handler i (buildOptionMap i.ApplicationCommandData.Options)) w.pickResult with
              | .result res => deliver w i res
              | .timedOut =>
                Effect.log ("command \x27" ++ h.name ++ "\x27 timed out") ::
                  deliver w i timeoutMessage)) := by
  simp [InstalledHandler.run, hkind, hname]

/-- After its Acknowledge, the closure makes no further Acknowledge call. -/
theorem run_matching_ack_first (h : InstalledHandler) (m : Megobot) (w : World)
    (i : InteractionCreate) (hkind : i.Type_ = InteractionApplicationCommand)
    (hname : i.ApplicationCommandData.Name = h.name) :
    ∃ rest, h.run m w i =
        Effect.InteractionRespond i.ID InteractionResponseDeferredChannelMessageWithSource :: rest
      ∧ rest.filter Effect.isAcknowledge = [] := by
  rw [run_matching h m w i hkind hname]
  refine ⟨_, rfl, ?_⟩
  cases w.respondErr with
  | some err => simp [Effect.isAcknowledge]
  | none =>
    cases selectResult m.timeout (h.handler i (buildOptionMap i.ApplicationCommandData.Options))
        w.pickResult with
    | result res => simp [Effect.isAcknowledge, deliver_no_acknowledge]
    | timedOut => simp [Effect.isAcknowledge, deliver_no_acknowledge]

/-- When its Acknowledge fails, the closure logs and stops. -/
theorem run_ack_failed (h : InstalledHandler) (m : Megobot) (w : World) (i : InteractionCreate)
    (err : String) (hkind : i.Type_ = InteractionApplicationCommand)
    (hname : i.ApplicationCommandData.Name = h.name) (hack : w.respondErr = some err) :
    h.run m w i =
      [Effect.InteractionRespond i.ID InteractionResponseDeferredChannelMessageWithSource,
       Effect.log ("error sending deferred response: " ++ err)] := by
  rw [run_matching h m w i hkind hname, hack]

/-! ## Registration: what it changes -/

theorem Registration.installed_name (r : Registration) : r.installed.name = r.declared.Name := by
  cases r <;> rfl

theorem Registration.apply_commands (m : Megobot) (r : Registration) :
    (r.apply m).commands = m.commands ++ [r.declared] := by
  cases r <;> rfl

theorem Registration.apply_handlers (m : Megobot) (r : Registration) :
    (r.apply m).session.handlers = m.session.handlers ++ [r.installed] := by
  cases r <;> rfl

theorem Registration.apply_guildId (m : Megobot) (r : Registration) :
    (r.apply m).guildId = m.guildId := by
  cases r <;> rfl

theorem Megobot.register_commands (m : Megobot) (regs : List Registration) :
    (m.register regs).commands = m.commands ++ regs.map Registration.declared := by
  induction regs generalizing m with
  | nil => simp [Megobot.register]
  | cons r t ih =>
    have := ih (r.apply m)
    simp only [Megobot.register, List.foldl_cons] at this ⊢
    rw [this, Registration.apply_commands]
    simp

theorem Megobot.register_handlers (m : Megobot) (regs : List Registration) :
    (m.register regs).session.handlers
      = m.session.handlers ++ regs.map Registration.installed := by
  induction regs generalizing m with
  | nil => simp [Megobot.register]
  | cons r t ih =>
    have := ih (r.apply m)
    simp only [Megobot.register, List.foldl_cons] at this ⊢
    rw [this, Registration.apply_handlers]
    simp

theorem Megobot.register_guildId (m : Megobot) (regs : List Registration) :
    (m.register regs).guildId = m.guildId := by
  induction regs generalizing m with
  | nil => simp [Megobot.register]
  | cons r t ih =>
    have := ih (r.apply m)
    simp only [Megobot.register, List.foldl_cons] at this ⊢
    rw [this, Registration.apply_guildId]

theorem New_ok (newErr : Option String) (token guildId : String) (m0 : Megobot)
    (h : New newErr token guildId = .ok m0) :
    m0.commands = [] ∧ m0.session.handlers = [] ∧ m0.guildId = guildId
      ∧ m0.timeout = 30 * Second := by
  cases newErr with
  | some err => simp [New] at h
  | none =>
    simp only [New, Except.ok.injEq] at h
    subst h
    exact ⟨rfl, rfl, rfl, rfl⟩

/-- The handlers of a bot registered from a fresh one bear the registered names. -/
theorem register_fresh_handler_names (newErr : Option String) (token guildId : String)
    (m0 : Megobot) (regs : List Registration) (h : New newErr token guildId = .ok m0) :
    (m0.register regs).session.handlers.map (fun h => h.name) = registeredNames regs := by
  rw [Megobot.register_handlers, (New_ok newErr token guildId m0 h).2.1]
  simp [registeredNames, Registration.installed_name]

/-! ## Delivery of an event to all installed handlers -/

theorem traces_all_empty (m : Megobot) (ws : Nat → World) (i : InteractionCreate)
    (hs : List InstalledHandler) (n : Nat)
    (hno : ∀ h ∈ hs, i.Type_ ≠ InteractionApplicationCommand
      ∨ i.ApplicationCommandData.Name ≠ h.name) :
    ∀ t ∈ (hs.enumFrom n).map (fun p => p.2.run m (ws p.1) i), t = [] := by
  induction hs generalizing n with
  | nil => simp
  | cons h t ih =>
    intro tr htr
    simp only [List.enumFrom_cons, List.map_cons, List.mem_cons] at htr
    rcases htr with e | e
    · rw [e]
      exact run_not_matching h m (ws n) i (hno h (List.mem_cons_self _ _))
    · exact ih (n + 1) (fun h' hh' => hno h' (List.mem_cons_of_mem _ hh')) tr e

theorem flatten_eq_nil_of_all_empty {α : Type} (ls : List (List α)) (h : ∀ t ∈ ls, t = []) :
    ls.flatten = [] ∧ ls.filter (fun t => !t.isEmpty) = [] := by
  induction ls with
  | nil => simp
  | cons a t ih =>
    have ha : a = [] := h a (List.mem_cons_self _ _)
    have := ih (fun x hx => h x (List.mem_cons_of_mem _ hx))
    subst ha
    simp [this.1, this.2]

/-- When exactly one installed handler bears the name of a command invocation,
its trace is the only one that is not empty. -/
theorem traces_unique_match (m : Megobot) (ws : Nat → World) (i : InteractionCreate)
    (hkind : i.Type_ = InteractionApplicationCommand)
    (hs : List InstalledHandler) (n : Nat)
    (hone : (hs.map (fun h => h.name)).count i.ApplicationCommandData.Name = 1) :
    ∃ k h, h ∈ hs ∧ i.ApplicationCommandData.Name = h.name
      ∧ ((hs.enumFrom n).map (fun p => p.2.run m (ws p.1) i)).flatten = h.run m (ws k) i
      ∧ ((hs.enumFrom n).map (fun p => p.2.run m (ws p.1) i)).filter (fun t => !t.isEmpty)
          = [h.run m (ws k) i] := by
  induction hs generalizing n with
  | nil => simp at hone
  | cons h t ih =>
    by_cases hn : i.ApplicationCommandData.Name = h.name
    · have hzero : (t.map (fun h => h.name)).count i.ApplicationCommandData.Name = 0 := by
        simp only [List.map_cons, hn, List.count_cons_self] at hone
        rw [hn]
        omega
      have hnone : ∀ h' ∈ t, i.Type_ ≠ InteractionApplicationCommand
          ∨ i.ApplicationCommandData.Name ≠ h'.name := by
        intro h' hh'
        right
        intro e
        have hmem : i.ApplicationCommandData.Name ∈ t.map (fun h => h.name) :=
          List.mem_map.2 ⟨h', hh', e.symm⟩
        exact (List.count_eq_zero.1 hzero) hmem
      have hrest := flatten_eq_nil_of_all_empty _ (traces_all_empty m ws i t (n + 1) hnone)
      obtain ⟨rest, hrun, _⟩ := run_matching_ack_first h m (ws n) i hkind hn
      refine ⟨n, h, List.mem_cons_self _ _, hn, ?_, ?_⟩
      · simp only [List.enumFrom_cons, List.map_cons, List.flatten_cons]
        rw [hrest.1]
        simp
      · simp only [List.enumFrom_cons, List.map_cons]
        rw [List.filter_cons, hrest.2, hrun]
        simp
    · have hone' : (t.map (fun h => h.name)).count i.ApplicationCommandData.Name = 1 := by
        have hne : ¬ h.name = i.ApplicationCommandData.Name := fun e => hn e.symm
        simpa [List.count_cons, hne] using hone
      obtain ⟨k, h', hmem, hname, hflat, hfilt⟩ := ih (n + 1) hone'
      have hempty : h.run m (ws n) i = [] := run_not_matching h m (ws n) i (Or.inr hn)
      refine ⟨k, h', List.mem_cons_of_mem _ hmem, hname, ?_, ?_⟩
      · simp only [List.enumFrom_cons, List.map_cons, List.flatten_cons]
        rw [hempty, hflat]
        simp
      · simp only [List.enumFrom_cons, List.map_cons]
        rw [List.filter_cons, hempty, hfilt]
        simp

theorem installedBy_eq (m0 : Megobot) (name description : String)
    (options : List ApplicationCommandOption) (handler : CommandHandler) :
    installedBy m0 name description options handler = [{ name := name, handler := handler }] := by
  simp [installedBy, Megobot.AddCommand, Session.AddHandler]

theorem installedBy_mem (m0 : Megobot) (name description : String)
    (options : List ApplicationCommandOption) (handler : CommandHandler) (h : InstalledHandler)
    (hinst : h ∈ installedBy m0 name description options handler) :
    h.name = name ∧ h.handler = handler := by
  rw [installedBy_eq, List.mem_singleton] at hinst
  subst hinst
  exact ⟨rfl, rfl⟩

/-! ## The dispatcher closure -/

/-- C1: in a dispatch by the closure that `AddCommand name _ _ handler` installs, on a command
invocation named `name` whose Acknowledge succeeds, a handler that returns a non-empty string
`r` strictly before the bot's timeout elapses leads to exactly one EditResponse call, with
content `r`; the transport calls of the dispatch are the Acknowledge and that edit. -/
theorem handler_result_edited_once (m0 m : Megobot) (name description : String)
    (options : List ApplicationCommandOption) (handler : CommandHandler) (h : InstalledHandler)
    (w : World) (i : InteractionCreate) (d : Nat) (r : String)
    (hinst : h ∈ installedBy m0 name description options handler)
    (hkind : i.Type_ = InteractionApplicationCommand)
    (hname : i.ApplicationCommandData.Name = name)
    (hack : w.respondErr = none)
    (hret : handler i (buildOptionMap i.ApplicationCommandData.Options) = some (d, r))
    (hne : r ≠ "")
    (hbefore : (d : Int) < m.timeout) :
    (h.run m w i).filterMap Effect.editContent? = [r]
      ∧ (h.run m w i).filter Effect.isTransport =
          [Effect.InteractionRespond i.ID InteractionResponseDeferredChannelMessageWithSource,
           Effect.InteractionResponseEdit i.ID r] := by
  obtain ⟨hn, hh⟩ := installedBy_mem m0 name description options handler h hinst
  rw [run_matching h m w i hkind (hname.trans hn.symm), hack, hh, hret]
  simp only [selectResult_before m.timeout d r w.pickResult hbefore]
  constructor
  · simp [Effect.editContent?, deliver_edit_contents w i r hne]
  · simp [Effect.isTransport, deliver_filter_transport w i r hne]

/-- C2: in a dispatch by the closure that `AddCommand` installs, with a successful Acknowledge,
when the handler has not returned at the instant the timer of the bot's timeout (read at
dispatch) fires, exactly one EditResponse call is made, with the fixed timeout message, and the
transport calls are the Acknowledge and that edit, whatever the handler returns later and also
when it never returns. -/
theorem timeout_edits_once_with_fixed_message (m0 m : Megobot) (name description : String)
    (options : List ApplicationCommandOption) (handler : CommandHandler) (h : InstalledHandler)
    (w : World) (i : InteractionCreate)
    (hinst : h ∈ installedBy m0 name description options handler)
    (hkind : i.Type_ = InteractionApplicationCommand)
    (hname : i.ApplicationCommandData.Name = name)
    (hack : w.respondErr = none)
    (hlate : ∀ d r, handler i (buildOptionMap i.ApplicationCommandData.Options) = some (d, r) →
      timerFires m.timeout < (d : Int)) :
    (h.run m w i).filterMap Effect.editContent? = [timeoutMessage]
      ∧ (h.run m w i).filter Effect.isTransport =
          [Effect.InteractionRespond i.ID InteractionResponseDeferredChannelMessageWithSource,
           Effect.InteractionResponseEdit i.ID timeoutMessage] := by
  obtain ⟨hn, hh⟩ := installedBy_mem m0 name description options handler h hinst
  rw [run_matching h m w i hkind (hname.trans hn.symm), hack, hh]
  simp only [selectResult_after m.timeout _ w.pickResult hlate]
  constructor
  · simp [Effect.editContent?, deliver_edit_contents w i timeoutMessage timeoutMessage_ne_empty]
  · simp [Effect.isTransport, deliver_filter_transport w i timeoutMessage timeoutMessage_ne_empty]

/-- C3: in a dispatch by the closure that `AddCommand` installs, when the handler returns the
empty string strictly before the timeout elapses, no EditResponse call is made and the only
transport call of the dispatch is the single Acknowledge. -/
theorem empty_result_no_edit (m0 m : Megobot) (name description : String)
    (options : List ApplicationCommandOption) (handler : CommandHandler) (h : InstalledHandler)
    (w : World) (i : InteractionCreate) (d : Nat)
    (hinst : h ∈ installedBy m0 name description options handler)
    (hkind : i.Type_ = InteractionApplicationCommand)
    (hname : i.ApplicationCommandData.Name = name)
    (hret : handler i (buildOptionMap i.ApplicationCommandData.Options) = some (d, ""))
    (hbefore : (d : Int) < m.timeout) :
    (h.run m w i).filter Effect.isEdit = []
      ∧ (h.run m w i).filter Effect.isTransport =
          [Effect.InteractionRespond i.ID InteractionResponseDeferredChannelMessageWithSource] := by
  obtain ⟨hn, hh⟩ := installedBy_mem m0 name description options handler h hinst
  rw [run_matching h m w i hkind (hname.trans hn.symm), hh, hret]
  simp only [selectResult_before m.timeout d "" w.pickResult hbefore]
  cases w.respondErr <;> simp [Effect.isEdit, Effect.isTransport, deliver]

/-- Witness of C1: the handler of `ping` answers `pong` after 10 ms under the default timeout. -/
theorem handler_result_edited_once_witness :
    pongHandler pingEvent (buildOptionMap pingEvent.ApplicationCommandData.Options)
        = some (10000000, "pong")
      ∧ ((10000000 : Nat) : Int) < sampleBot.timeout
      ∧ (InstalledHandler.run { name := "ping", handler := pongHandler } sampleBot okWorld
            pingEvent).filterMap Effect.editContent? = ["pong"]
      ∧ (InstalledHandler.run { name := "ping", handler := pongHandler } sampleBot okWorld
            pingEvent).filter Effect.isTransport =
          [Effect.InteractionRespond "i1" InteractionResponseDeferredChannelMessageWithSource,
           Effect.InteractionResponseEdit "i1" "pong"] :=
  ⟨rfl, by decide,
    handler_result_edited_once sampleBot sampleBot "ping" "replies" [] pongHandler
      { name := "ping", handler := pongHandler } okWorld pingEvent 10000000 "pong"
      (by simp [installedBy_eq]) rfl rfl rfl rfl (by decide) (by decide)⟩

/-- Witness of C2: the handler of `slow` needs 2 s under a timeout of 500 ms. -/
theorem timeout_edits_once_with_fixed_message_witness :
    timerFires (sampleBot.SetTimeout 500000000).timeout < ((2000000000 : Nat) : Int)
      ∧ (InstalledHandler.run { name := "ping", handler := slowHandler }
            (sampleBot.SetTimeout 500000000) okWorld pingEvent).filterMap Effect.editContent?
          = [timeoutMessage]
      ∧ (InstalledHandler.run { name := "ping", handler := slowHandler }
            (sampleBot.SetTimeout 500000000) okWorld pingEvent).filter Effect.isTransport =
          [Effect.InteractionRespond "i1" InteractionResponseDeferredChannelMessageWithSource,
           Effect.InteractionResponseEdit "i1" timeoutMessage] :=
  ⟨by decide,
    timeout_edits_once_with_fixed_message sampleBot (sampleBot.SetTimeout 500000000) "ping"
      "sleeps" [] slowHandler { name := "ping", handler := slowHandler } okWorld pingEvent
      (by simp [installedBy_eq]) rfl rfl rfl
      (by
        intro d r hrun
        simp only [slowHandler, Option.some.injEq, Prod.mk.injEq] at hrun
        rw [← hrun.1]
        decide)⟩

/-- Witness of C3: the handler of `ping` returns the empty string at once. -/
theorem empty_result_no_edit_witness :
    silentHandler pingEvent (buildOptionMap pingEvent.ApplicationCommandData.Options)
        = some (0, "")
      ∧ (InstalledHandler.run { name := "ping", handler := silentHandler } sampleBot okWorld
            pingEvent).filter Effect.isEdit = []
      ∧ (InstalledHandler.run { name := "ping", handler := silentHandler } sampleBot okWorld
            pingEvent).filter Effect.isTransport =
          [Effect.InteractionRespond "i1" InteractionResponseDeferredChannelMessageWithSource] :=
  ⟨rfl,
    empty_result_no_edit sampleBot sampleBot "ping" "replies" [] silentHandler
      { name := "ping", handler := silentHandler } okWorld pingEvent 0
      (by simp [installedBy_eq]) rfl rfl rfl (by decide)⟩

/-! ## Delivery to the installed handlers -/

theorem traces_are_runs (m : Megobot) (ws : Nat → World) (i : InteractionCreate)
    (hs : List InstalledHandler) (n : Nat) :
    ∀ t ∈ (hs.enumFrom n).map (fun p => p.2.run m (ws p.1) i),
      ∃ k h, h ∈ hs ∧ t = h.run m (ws k) i := by
  induction hs generalizing n with
  | nil => simp
  | cons h t ih =>
    intro tr htr
    simp only [List.enumFrom_cons, List.map_cons, List.mem_cons] at htr
    rcases htr with e | e
    · exact ⟨n, h, List.mem_cons_self _ _, e⟩
    · obtain ⟨k, h', hmem, ht⟩ := ih (n + 1) tr e
      exact ⟨k, h', List.mem_cons_of_mem _ hmem, ht⟩

/-- C4: on a command invocation for which every Acknowledge call fails, each installed closure
bearing the name of the event makes its Acknowledge call, logs the error and stops; in the whole
delivery no handler is invoked, no EditResponse call is made, and the only transport calls are
those Acknowledge calls. -/
theorem ack_failure_aborts_invocation (m : Megobot) (ws : Nat → World) (i : InteractionCreate)
    (hkind : i.Type_ = InteractionApplicationCommand)
    (hfail : ∀ k, (ws k).respondErr ≠ none) :
    (∀ h ∈ m.session.handlers, i.ApplicationCommandData.Name = h.name →
        ∀ k, ∃ err, (ws k).respondErr = some err ∧ h.run m (ws k) i =
          [Effect.InteractionRespond i.ID InteractionResponseDeferredChannelMessageWithSource,
           Effect.log ("error sending deferred response: " ++ err)])
      ∧ (∀ t ∈ m.handleEvent ws i, ∀ e ∈ t,
          e.isHandlerCall = false ∧ e.isEdit = false ∧
            (e.isTransport = true → e =
              Effect.InteractionRespond i.ID InteractionResponseDeferredChannelMessageWithSource)) := by
  have hrun : ∀ (h : InstalledHandler), i.ApplicationCommandData.Name = h.name →
      ∀ k, ∃ err, (ws k).respondErr = some err ∧ h.run m (ws k) i =
          [Effect.InteractionRespond i.ID InteractionResponseDeferredChannelMessageWithSource,
           Effect.log ("error sending deferred response: " ++ err)] := by
    intro h hname k
    cases hk : (ws k).respondErr with
    | none => exact absurd hk (hfail k)
    | some err => exact ⟨err, rfl, run_ack_failed h m (ws k) i err hkind hname hk⟩
  refine ⟨fun h _ hname k => hrun h hname k, ?_⟩
  intro t ht e he
  obtain ⟨k, h, _, hrunEq⟩ := traces_are_runs m ws i m.session.handlers 0 t ht
  by_cases hname : i.ApplicationCommandData.Name = h.name
  · obtain ⟨err, _, hshape⟩ := hrun h hname k
    rw [hrunEq, hshape] at he
    simp only [List.mem_cons, List.mem_singleton, List.not_mem_nil, or_false] at he
    rcases he with e1 | e1 <;> subst e1 <;> simp [Effect.isHandlerCall, Effect.isEdit, Effect.isTransport]
  · rw [hrunEq, run_not_matching h m (ws k) i (Or.inr hname)] at he
    simp at he

/-- Witness of C4: the bot with `ping` and `slow` registered, every Acknowledge failing. -/
theorem ack_failure_aborts_invocation_witness :
    (sampleBot.register sampleRegs).handleEvent (fun _ => ackFailWorld) pingEvent =
        [[Effect.InteractionRespond "i1" InteractionResponseDeferredChannelMessageWithSource,
          Effect.log "error sending deferred response: boom"], []]
      ∧ ∀ t ∈ (sampleBot.register sampleRegs).handleEvent (fun _ => ackFailWorld) pingEvent,
          ∀ e ∈ t, e.isHandlerCall = false ∧ e.isEdit = false ∧
            (e.isTransport = true → e =
              Effect.InteractionRespond pingEvent.ID
                InteractionResponseDeferredChannelMessageWithSource) :=
  ⟨by decide,
    (ack_failure_aborts_invocation (sampleBot.register sampleRegs) (fun _ => ackFailWorld)
      pingEvent rfl (fun _ => by simp [ackFailWorld])).2⟩

/-- C5: for a bot obtained from a fresh one by any sequence of registrations, an event whose
kind is not command invocation, or whose command name is none of the registered names, makes
every installed closure return at once: no transport call, no handler invocation, no effect at
all in any of them. -/
theorem unmatched_event_no_effects (newErr : Option String) (token guildId : String)
    (m0 : Megobot) (regs : List Registration) (ws : Nat → World) (i : InteractionCreate)
    (hnew : New newErr token guildId = .ok m0)
    (hno : i.Type_ ≠ InteractionApplicationCommand
      ∨ i.ApplicationCommandData.Name ∉ registeredNames regs) :
    (∀ t ∈ (m0.register regs).handleEvent ws i, t = [])
      ∧ ((m0.register regs).handleEvent ws i).flatten = [] := by
  have hnames := register_fresh_handler_names newErr token guildId m0 regs hnew
  have hall : ∀ t ∈ (m0.register regs).handleEvent ws i, t = [] := by
    apply traces_all_empty (m0.register regs) ws i (m0.register regs).session.handlers 0
    intro h hh
    rcases hno with hk | hn
    · exact Or.inl hk
    · right
      intro e
      apply hn
      rw [← hnames, e]
      exact List.mem_map.2 ⟨h, hh, rfl⟩
  exact ⟨hall, (flatten_eq_nil_of_all_empty _ hall).1⟩

/-- Witness of C5: an invocation of `ping` on a bot where only `slow` is registered. -/
theorem unmatched_event_no_effects_witness :
    pingEvent.ApplicationCommandData.Name ∉ registeredNames
        [.bind { Name := "slow", Description := "sleeps", Options := [], Handler := slowHandler }]
      ∧ ((sampleBot.register
          [.bind { Name := "slow", Description := "sleeps", Options := [], Handler := slowHandler }]
          ).handleEvent (fun _ => okWorld) pingEvent).flatten = [] :=
  ⟨by decide,
    (unmatched_event_no_effects none "t" "g" sampleBot
      [.bind { Name := "slow", Description := "sleeps", Options := [], Handler := slowHandler }]
      (fun _ => okWorld) pingEvent rfl (Or.inr (by decide))).2⟩

/-- C6, as stated, fails: with the name `ping` registered twice, one invocation of `ping`
triggers two Acknowledge calls for the interaction. -/
theorem duplicate_name_two_acknowledges :
    New none "t" "g" = .ok sampleBot
      ∧ "ping" ∈ registeredNames duplicateRegs
      ∧ pingEvent.Type_ = InteractionApplicationCommand
      ∧ pingEvent.ApplicationCommandData.Name = "ping"
      ∧ ((sampleBot.register duplicateRegs).handleEvent (fun _ => okWorld) pingEvent).flatten.filter
          Effect.isAcknowledge =
          [Effect.InteractionRespond "i1" InteractionResponseDeferredChannelMessageWithSource,
           Effect.InteractionRespond "i1" InteractionResponseDeferredChannelMessageWithSource] :=
  ⟨rfl, by decide, rfl, rfl, by decide⟩

/-- C6, amended: for a bot obtained from a fresh one by any sequence of registrations and a
name registered exactly once in it, a command invocation with that name makes exactly one
installed closure act; the effects of the delivery start with the Acknowledge for the
interaction, which is the only Acknowledge call and so precedes every EditResponse call. -/
theorem unique_name_one_acknowledge_first (newErr : Option String) (token guildId : String)
    (m0 : Megobot) (regs : List Registration) (ws : Nat → World) (i : InteractionCreate)
    (hnew : New newErr token guildId = .ok m0)
    (hkind : i.Type_ = InteractionApplicationCommand)
    (hone : (registeredNames regs).count i.ApplicationCommandData.Name = 1) :
    (((m0.register regs).handleEvent ws i).filter (fun t => !t.isEmpty)).length = 1
      ∧ ((m0.register regs).handleEvent ws i).flatten.filter Effect.isAcknowledge =
          [Effect.InteractionRespond i.ID InteractionResponseDeferredChannelMessageWithSource]
      ∧ ∃ rest, ((m0.register regs).handleEvent ws i).flatten =
          Effect.InteractionRespond i.ID InteractionResponseDeferredChannelMessageWithSource :: rest
          ∧ rest.filter Effect.isAcknowledge = [] := by
  have hnames := register_fresh_handler_names newErr token guildId m0 regs hnew
  rw [← hnames] at hone
  obtain ⟨k, h, _, hname, hflat, hfilt⟩ :=
    traces_unique_match (m0.register regs) ws i hkind (m0.register regs).session.handlers 0 hone
  obtain ⟨rest, hrun, hrest⟩ := run_matching_ack_first h (m0.register regs) (ws k) i hkind hname
  have hflat' : ((m0.register regs).handleEvent ws i).flatten = h.run (m0.register regs) (ws k) i :=
    hflat
  have hfilt' : ((m0.register regs).handleEvent ws i).filter (fun t => !t.isEmpty)
      = [h.run (m0.register regs) (ws k) i] := hfilt
  refine ⟨by rw [hfilt']; rfl, ?_, rest, by rw [hflat', hrun], hrest⟩
  rw [hflat', hrun]
  simp [Effect.isAcknowledge, hrest]

/-- Witness of C6, amended: `ping` and `slow` registered once each, `ping` invoked. -/
theorem unique_name_one_acknowledge_first_witness :
    (registeredNames sampleRegs).count pingEvent.ApplicationCommandData.Name = 1
      ∧ ((sampleBot.register sampleRegs).handleEvent (fun _ => okWorld) pingEvent).flatten.filter
          Effect.isAcknowledge =
          [Effect.InteractionRespond pingEvent.ID
            InteractionResponseDeferredChannelMessageWithSource] :=
  ⟨by decide,
    (unique_name_one_acknowledge_first none "t" "g" sampleBot sampleRegs (fun _ => okWorld)
      pingEvent rfl rfl (by decide)).2.1⟩

/-! ## Lifecycle -/

/-- C7: in a run of `Start` whose connection opens and whose `select` fires on `u`, whatever
the outcomes of publication and retraction, the transport calls after unblocking are the bulk
overwrite with the empty command set and then the connection close, both in the trace of the
call, which returns the context error when the context fired and `nil` when a signal did. -/
theorem start_teardown_after_unblock (m : Megobot) (w : StartWorld) (u : Unblock)
    (hopen : w.openErr = none) (hunblock : w.unblock = some u) :
    ∃ pre post, (m.Start w).1 = pre ++ Effect.unblocked u :: post
      ∧ (∀ u0, Effect.unblocked u0 ∉ pre)
      ∧ post.filter Effect.isTransport =
          [Effect.ApplicationCommandBulkOverwrite w.userID m.guildId [], Effect.Close]
      ∧ (m.Start w).2 = .returned (match u with
          | .ctxDone err => some err
          | .signal _ => none) := by
  cases u with
  | ctxDone err =>
    refine ⟨Effect.Open :: m.loadCommands w,
      Effect.log ("context cancelled: " ++ err) :: (m.clearCommands w ++ [Effect.Close]), ?_, ?_, ?_, ?_⟩
    · simp [Megobot.Start, hopen, hunblock]
    · intro u0
      cases hl : w.loadErr <;> simp [Megobot.loadCommands, hl]
    · cases hc : w.clearErr <;> simp [Megobot.clearCommands, hc, Effect.isTransport]
    · simp [Megobot.Start, hopen, hunblock]
  | signal sig =>
    refine ⟨Effect.Open :: m.loadCommands w,
      Effect.log ("signal received: " ++ sig) :: (m.clearCommands w ++ [Effect.Close]), ?_, ?_, ?_, ?_⟩
    · simp [Megobot.Start, hopen, hunblock]
    · intro u0
      cases hl : w.loadErr <;> simp [Megobot.loadCommands, hl]
    · cases hc : w.clearErr <;> simp [Megobot.clearCommands, hc, Effect.isTransport]
    · simp [Megobot.Start, hopen, hunblock]

/-- Witness of C7: the context is cancelled; publication and retraction both fail. -/
theorem start_teardown_after_unblock_witness :
    cancelledStart.openErr = none
      ∧ cancelledStart.unblock = some (.ctxDone "context canceled")
      ∧ ∃ pre post, ((sampleBot.register sampleRegs).Start cancelledStart).1
            = pre ++ Effect.unblocked (.ctxDone "context canceled") :: post
          ∧ (∀ u0, Effect.unblocked u0 ∉ pre)
          ∧ post.filter Effect.isTransport =
              [Effect.ApplicationCommandBulkOverwrite cancelledStart.userID
                (sampleBot.register sampleRegs).guildId [], Effect.Close]
          ∧ ((sampleBot.register sampleRegs).Start cancelledStart).2
              = .returned (some "context canceled") :=
  ⟨rfl, rfl,
    start_teardown_after_unblock (sampleBot.register sampleRegs) cancelledStart
      (.ctxDone "context canceled") rfl rfl⟩

/-- C8: when opening the connection fails with `e`, `Start` logs and returns `e`; the only
transport call is the open itself: no bulk overwrite, no close, and no wait, since the result
does not depend on whether anything ever unblocks. -/
theorem start_open_failure_returns (m : Megobot) (w : StartWorld) (e : String)
    (hopen : w.openErr = some e) :
    m.Start w = ([Effect.Open, Effect.log ("error opening connection: " ++ e)],
        .returned (some e))
      ∧ (m.Start w).1.filter Effect.isTransport = [Effect.Open]
      ∧ (∀ u, Effect.unblocked u ∉ (m.Start w).1) := by
  have hstart : m.Start w = ([Effect.Open, Effect.log ("error opening connection: " ++ e)],
      .returned (some e)) := by
    simp [Megobot.Start, hopen]
  rw [hstart]
  simp [Effect.isTransport]

/-- Witness of C8: the open fails and neither the context nor a signal ever fires. -/
theorem start_open_failure_returns_witness :
    failedOpenStart.unblock = none
      ∧ (sampleBot.register sampleRegs).Start failedOpenStart =
          ([Effect.Open, Effect.log ("error opening connection: " ++ "no route")],
            .returned (some "no route")) :=
  ⟨rfl, (start_open_failure_returns (sampleBot.register sampleRegs) failedOpenStart "no route"
    rfl).1⟩

/-- C9: for registrations `regs` made on a fresh bot through `AddCommand` or `Command.Bind`,
the registry is the sequence of their declarations, in registration order and of the same
length; `Start`, once the connection is open, publishes exactly that sequence with its first
bulk overwrite, and any later overwrite carries the empty set; every registration appends
its one declaration to the registry and leaves the earlier entries in place. -/
theorem start_publishes_registry (newErr : Option String) (token guildId : String)
    (m0 : Megobot) (regs : List Registration) (w : StartWorld)
    (hnew : New newErr token guildId = .ok m0) (hopen : w.openErr = none) :
    (m0.register regs).commands = regs.map Registration.declared
      ∧ (m0.register regs).commands.length = regs.length
      ∧ (∃ rest, ((m0.register regs).Start w).1 =
            Effect.Open ::
              Effect.ApplicationCommandBulkOverwrite w.userID guildId
                (regs.map Registration.declared) :: rest
          ∧ ∀ e ∈ rest, ∀ cmds, e.overwritten? = some cmds → cmds = [])
      ∧ (∀ (m : Megobot) (r : Registration),
          (r.apply m).commands = m.commands ++ [r.declared]
            ∧ (r.apply m).commands.length = m.commands.length + 1) := by
  obtain ⟨hc, _, hg, _⟩ := New_ok newErr token guildId m0 hnew
  have hcmds : (m0.register regs).commands = regs.map Registration.declared := by
    rw [Megobot.register_commands, hc]
    simp
  have hguild : (m0.register regs).guildId = guildId := by
    rw [Megobot.register_guildId, hg]
  refine ⟨hcmds, by rw [hcmds]; simp, ?_, ?_⟩
  · cases hu : w.unblock with
    | none =>
      cases hl : w.loadErr <;>
        simp [Megobot.Start, Megobot.loadCommands, hopen, hu, hl, hcmds, hguild,
          Effect.overwritten?]
    | some u =>
      cases u <;> cases hl : w.loadErr <;> cases hcl : w.clearErr <;>
        simp [Megobot.Start, Megobot.loadCommands, Megobot.clearCommands, hopen, hu, hl, hcl,
          hcmds, hguild, Effect.overwritten?]
  · intro m r
    rw [Registration.apply_commands]
    simp

/-- Witness of C9: `ping` registered through `AddCommand`, then `slow` through `Bind`. -/
theorem start_publishes_registry_witness :
    (sampleBot.register sampleRegs).commands =
        [{ Name := "ping", Description := "replies", Options := [] },
         { Name := "slow", Description := "sleeps", Options := [] }]
      ∧ ∃ rest, ((sampleBot.register sampleRegs).Start cancelledStart).1 =
          Effect.Open ::
            Effect.ApplicationCommandBulkOverwrite cancelledStart.userID "g"
              (sampleRegs.map Registration.declared) :: rest
          ∧ ∀ e ∈ rest, ∀ cmds, e.overwritten? = some cmds → cmds = [] :=
  ⟨(start_publishes_registry none "t" "g" sampleBot sampleRegs cancelledStart rfl rfl).1,
    (start_publishes_registry none "t" "g" sampleBot sampleRegs cancelledStart rfl rfl).2.2.1⟩

/-! ## Parameter assembly -/

/-- C10: the map the closure hands to the handler is `buildOptionMap` of the option list of the
event; its keys are pairwise distinct and are exactly the option names occurring in the list,
and each key maps to the last option of the list bearing that name; when the option names are
pairwise distinct, the map has as many entries as the list and the name of every option of the
list maps to that option. -/
theorem option_map_keys_and_values (i : InteractionCreate) :
    (∀ (h : InstalledHandler) (m : Megobot) (w : World),
        i.Type_ = InteractionApplicationCommand → i.ApplicationCommandData.Name = h.name →
        w.respondErr = none →
        (h.run m w i).filter Effect.isHandlerCall =
          [Effect.handlerCall i (buildOptionMap i.ApplicationCommandData.Options)])
      ∧ (∀ k, k ∈ (buildOptionMap i.ApplicationCommandData.Options).keys
          ↔ ∃ o ∈ i.ApplicationCommandData.Options, o.Name = k)
      ∧ (buildOptionMap i.ApplicationCommandData.Options).keys.Nodup
      ∧ (∀ k, (buildOptionMap i.ApplicationCommandData.Options).get? k
          = i.ApplicationCommandData.Options.reverse.find? (fun o => decide (o.Name = k)))
      ∧ ((i.ApplicationCommandData.Options.map (fun o => o.Name)).Nodup →
          (buildOptionMap i.ApplicationCommandData.Options).len
              = i.ApplicationCommandData.Options.length
            ∧ ∀ o ∈ i.ApplicationCommandData.Options,
                (buildOptionMap i.ApplicationCommandData.Options).get? o.Name = some o) := by
  have hget : ∀ k, (buildOptionMap i.ApplicationCommandData.Options).get? k
      = i.ApplicationCommandData.Options.reverse.find? (fun o => decide (o.Name = k)) := by
    intro k
    unfold buildOptionMap
    rw [foldl_set_get?]
    simp [GoMap.get?]
  refine ⟨?_, ?_, ?_, hget, ?_⟩
  · intro h m w hkind hname hack
    rw [run_matching h m w i hkind hname, hack]
    cases selectResult m.timeout (h.handler i (buildOptionMap i.ApplicationCommandData.Options))
        w.pickResult with
    | result res => simp [Effect.isHandlerCall, deliver_no_handlerCall]
    | timedOut => simp [Effect.isHandlerCall, deliver_no_handlerCall]
  · intro k
    unfold buildOptionMap
    rw [foldl_set_mem_keys]
    simp [GoMap.keys]
  · unfold buildOptionMap
    exact foldl_set_nodup_keys _ [] (by simp [GoMap.keys])
  · intro hnd
    constructor
    · unfold buildOptionMap
      rw [foldl_set_len _ [] hnd (by simp [GoMap.keys])]
      simp [GoMap.len]
    · intro o ho
      rw [hget, find?_last_of_nodup _ hnd o ho]

/-- Witness of C10: the option list of the sample invocation, with pairwise distinct names. -/
theorem option_map_keys_and_values_witness :
    (pingEvent.ApplicationCommandData.Options.map (fun o => o.Name)).Nodup
      ∧ (buildOptionMap pingEvent.ApplicationCommandData.Options).len
          = pingEvent.ApplicationCommandData.Options.length
      ∧ ∀ o ∈ pingEvent.ApplicationCommandData.Options,
          (buildOptionMap pingEvent.ApplicationCommandData.Options).get? o.Name = some o :=
  ⟨by decide, (option_map_keys_and_values pingEvent).2.2.2.2 (by decide)⟩
